import Mathlib

/-!
Verification of the story-site conversion script (src/convert.py).

Python strings are modelled as lists of code points (Nat), since the
surrogate-escape decoding produces lone surrogates in the range
U+DC80 to U+DCFF, which are not valid Lean Char values.  Byte strings
are lists of Nat below 256.  Text-level helpers (title sort key,
sanitization, credits pattern) are modelled over List Char.
-/

/-- UTF-8 decoding with the surrogateescape error handler, as performed by
bytes.decode(errors=\x7bsurrogateescape\x7d) in tolerant_decode
(src/convert.py line 180).  Every byte of an invalid sequence becomes the
code point 0xDC00 + byte; invalid sequences are delimited by the maximal
subpart rule used by CPython (a valid lead byte followed by continuation
bytes in range is escaped as a unit only up to the first byte that breaks
the sequence, that byte starting a fresh decode). -/
def decodeSE : List Nat → List Nat
  | [] => []
  | b :: rest =>
    if b < 0x80 then b :: decodeSE rest
    else if b < 0xC2 then (0xDC00 + b) :: decodeSE rest
    else if b ≤ 0xDF then
      match rest with
      | b2 :: rest2 =>
        if 0x80 ≤ b2 ∧ b2 ≤ 0xBF then
          ((b - 0xC0) * 0x40 + (b2 - 0x80)) :: decodeSE rest2
        else (0xDC00 + b) :: decodeSE (b2 :: rest2)
      | [] => [0xDC00 + b]
    else if b ≤ 0xEF then
      match rest with
      | b2 :: rest2 =>
        if (if b = 0xE0 then 0xA0 ≤ b2 ∧ b2 ≤ 0xBF
            else if b = 0xED then 0x80 ≤ b2 ∧ b2 ≤ 0x9F
            else 0x80 ≤ b2 ∧ b2 ≤ 0xBF) then
          match rest2 with
          | b3 :: rest3 =>
            if 0x80 ≤ b3 ∧ b3 ≤ 0xBF then
              ((b - 0xE0) * 0x1000 + (b2 - 0x80) * 0x40 + (b3 - 0x80)) :: decodeSE rest3
            else (0xDC00 + b) :: (0xDC00 + b2) :: decodeSE (b3 :: rest3)
          | [] => [0xDC00 + b, 0xDC00 + b2]
        else (0xDC00 + b) :: decodeSE (b2 :: rest2)
      | [] => [0xDC00 + b]
    else if b ≤ 0xF4 then
      match rest with
      | b2 :: rest2 =>
        if (if b = 0xF0 then 0x90 ≤ b2 ∧ b2 ≤ 0xBF
            else if b = 0xF4 then 0x80 ≤ b2 ∧ b2 ≤ 0x8F
            else 0x80 ≤ b2 ∧ b2 ≤ 0xBF) then
          match rest2 with
          | b3 :: rest3 =>
            if 0x80 ≤ b3 ∧ b3 ≤ 0xBF then
              match rest3 with
              | b4 :: rest4 =>
                if 0x80 ≤ b4 ∧ b4 ≤ 0xBF then
                  ((b - 0xF0) * 0x40000 + (b2 - 0x80) * 0x1000 +
                    (b3 - 0x80) * 0x40 + (b4 - 0x80)) :: decodeSE rest4
                else (0xDC00 + b) :: (0xDC00 + b2) :: (0xDC00 + b3) :: decodeSE (b4 :: rest4)
              | [] => [0xDC00 + b, 0xDC00 + b2, 0xDC00 + b3]
            else (0xDC00 + b) :: (0xDC00 + b2) :: decodeSE (b3 :: rest3)
          | [] => [0xDC00 + b, 0xDC00 + b2]
        else (0xDC00 + b) :: decodeSE (b2 :: rest2)
      | [] => [0xDC00 + b]
    else (0xDC00 + b) :: decodeSE rest

/-- Python str.replace for a 1-code-point pattern: every occurrence of p1 is
replaced by rep, scanning left to right. -/
def replace1 (p1 : Nat) (rep : List Nat) : List Nat → List Nat
  | [] => []
  | c1 :: rest =>
    if c1 = p1 then rep ++ replace1 p1 rep rest
    else c1 :: replace1 p1 rep rest

/-- Python str.replace for a 2-code-point pattern: every non-overlapping
occurrence of p1 p2, found scanning left to right, is replaced by rep. -/
def replace2 (p1 p2 : Nat) (rep : List Nat) : List Nat → List Nat
  | c1 :: c2 :: rest =>
    if c1 = p1 ∧ c2 = p2 then rep ++ replace2 p1 p2 rep rest
    else c1 :: replace2 p1 p2 rep (c2 :: rest)
  | l => l

/-- Python str.replace for a 3-code-point pattern: every non-overlapping
occurrence of p1 p2 p3, found scanning left to right, is replaced by rep. -/
def replace3 (p1 p2 p3 : Nat) (rep : List Nat) : List Nat → List Nat
  | c1 :: c2 :: c3 :: rest =>
    if c1 = p1 ∧ c2 = p2 ∧ c3 = p3 then rep ++ replace3 p1 p2 p3 rep rest
    else c1 :: replace3 p1 p2 p3 rep (c2 :: c3 :: rest)
  | l => l

/-- The ordered fixed substitution list of tolerant_decode
(src/convert.py lines 181-184): the truncated right-double-quote
sequences (with and without a trailing question mark), the truncated
a-grave byte, and the 2-byte sequence mapped to U+FFFD. -/
def applyFixes (s : List Nat) : List Nat :=
  let fixedQuotes1 := replace3 0xDCE2 0xDC80 0x3F [0x201D] s
  let fixedQuotes2 := replace2 0xDCE2 0xDC80 [0x201D] fixedQuotes1
  let fixedLetterAGrave := replace1 0xDCC3 [0xE0] fixedQuotes2
  replace2 0xDCEF 0xDCBC [0xFFFD] fixedLetterAGrave

/-- The cp1252 single-byte decoding table used by surrogate_cp1252_replace
(src/convert.py line 159).  Bytes 0x00-0x7F and 0xA0-0xFF map to
themselves; the 0x80-0x9F block maps to the Windows-1252 punctuation and
letters; the five bytes 0x81, 0x8D, 0x8F, 0x90 and 0x9D are undefined in
cp1252 and make the strict byte.decode raise UnicodeDecodeError. -/
def cp1252 (b : Nat) : Option Nat :=
  if b < 0x80 then some b
  else if 0xA0 ≤ b ∧ b ≤ 0xFF then some b
  else if b = 0x80 then some 0x20AC
  else if b = 0x82 then some 0x201A
  else if b = 0x83 then some 0x0192
  else if b = 0x84 then some 0x201E
  else if b = 0x85 then some 0x2026
  else if b = 0x86 then some 0x2020
  else if b = 0x87 then some 0x2021
  else if b = 0x88 then some 0x02C6
  else if b = 0x89 then some 0x2030
  else if b = 0x8A then some 0x0160
  else if b = 0x8B then some 0x2039
  else if b = 0x8C then some 0x0152
  else if b = 0x8E then some 0x017D
  else if b = 0x91 then some 0x2018
  else if b = 0x92 then some 0x2019
  else if b = 0x93 then some 0x201C
  else if b = 0x94 then some 0x201D
  else if b = 0x95 then some 0x2022
  else if b = 0x96 then some 0x2013
  else if b = 0x97 then some 0x2014
  else if b = 0x98 then some 0x02DC
  else if b = 0x99 then some 0x2122
  else if b = 0x9A then some 0x0161
  else if b = 0x9B then some 0x203A
  else if b = 0x9C then some 0x0153
  else if b = 0x9E then some 0x017E
  else if b = 0x9F then some 0x0178
  else none

/-- One step of the SURROGATE_ESCAPES substitution of tolerant_decode:
the surrogate_cp1252_replace callback result (the cp1252 lookup of the
escaped byte) prepended to the substitution of the remaining text; an
undefined cp1252 byte raises UnicodeDecodeError inside the callback,
modelled as Except.error. -/
def subsOne (r : Option Nat) (tail : Except String (List Nat)) :
    Except String (List Nat) :=
  match r with
  | none => Except.error "UnicodeDecodeError: character maps to undefined"
  | some ch => Except.map (fun out => ch :: out) tail

/-- The SURROGATE_ESCAPES regex substitution of tolerant_decode
(src/convert.py lines 156-162, 187-188): every code point in the range
U+DC80 to U+DCFF is replaced by the cp1252 interpretation of its low
byte; all other code points pass through unchanged. -/
def subSurrogates : List Nat → Except String (List Nat)
  | [] => Except.ok []
  | c :: rest =>
    if 0xDC80 ≤ c ∧ c ≤ 0xDCFF then subsOne (cp1252 (c - 0xDC00)) (subSurrogates rest)
    else Except.map (fun out => c :: out) (subSurrogates rest)

/-- tolerant_decode (src/convert.py lines 164-189): surrogateescape UTF-8
decode, the four fixed substitutions in order, then the cp1252
substitution of every remaining surrogate escape. -/
def tolerantDecode (storyData : List Nat) : Except String (List Nat) :=
  subSurrogates (applyFixes (decodeSE storyData))

/-- The depth-stack loop of parse_comments (src/convert.py lines 223-250).
The Python loop mutates Comment objects, appending each comment to the
child list of the comment on top of the truncated stack; here every
comment is named by its index in the flat sequence and the loop records,
for each index, the index of the parent it is appended to (none for a
top-level comment).  The stack holds indices, is truncated with
List.take (del stack[d:]) and pushed at the end; an empty truncated
stack with a nonzero depth is the assert failure, modelled as none.
The child lists of the Python objects are recovered by childrenOf and
topLevelOf below: children are appended in flat-sequence order, so the
child list of comment i is exactly the indices whose recorded parent
is i, in increasing order. -/
def assignParentsAux (stack : List Nat) (idx : Nat) : List Nat → Option (List (Option Nat))
  | [] => some []
  | d :: rest =>
    let stack' := stack.take d
    if d = 0 then
      match assignParentsAux (stack' ++ [idx]) (idx + 1) rest with
      | none => none
      | some tail => some (none :: tail)
    else
      match stack'.getLast? with
      | none => none
      | some p =>
        match assignParentsAux (stack' ++ [idx]) (idx + 1) rest with
        | none => none
        | some tail => some (some p :: tail)

/-- parse_comments on an already-extracted flat sequence, abstracted to
the depth of each comment (all other comment fields are carried through
the loop unchanged).  Returns the parent assignment, or none when the
depth-stack assert fires. -/
def parseComments (depths : List Nat) : Option (List (Option Nat)) :=
  assignParentsAux [] 0 depths

/-- Indices of the top-level comments (parent = none), in flat order:
the top_level_comments list of parse_comments. -/
def topLevelOf (ps : List (Option Nat)) : List Nat :=
  (List.range ps.length).filter fun j => ps[j]? == some none

/-- Indices of the children of comment i, in flat order: the comments
list of the Python Comment object with index i after parse_comments. -/
def childrenOf (ps : List (Option Nat)) (i : Nat) : List Nat :=
  (List.range ps.length).filter fun j => ps[j]? == some (some i)

/-- The timestamp of a Story, built by datetime(year, month, day, hour,
minute) in parse_story_file; datetime objects compare lexicographically
by field. -/
structure PyDate where
  year : Nat
  month : Nat
  day : Nat
  hour : Nat
  minute : Nat
deriving DecidableEq, Repr

/-- Lexicographic comparison of datetime values, as Python compares them. -/
def dateLe (a b : PyDate) : Bool :=
  decide (a.year < b.year) || (decide (a.year = b.year) &&
    (decide (a.month < b.month) || (decide (a.month = b.month) &&
      (decide (a.day < b.day) || (decide (a.day = b.day) &&
        (decide (a.hour < b.hour) || (decide (a.hour = b.hour) &&
          decide (a.minute ≤ b.minute))))))))

/-- The order relation used to model sorted(stories, key=attrgetter) with
the date key in convert_html_files (src/convert.py line 347). -/
def dleR (a b : PyDate) : Prop := dateLe a b = true

instance : DecidableRel dleR :=
  fun a b => inferInstanceAs (Decidable (dateLe a b = true))

/-- Pointwise update of an index-to-reference map, modelling the
assignment story.prev = ... or story.next = ... on the story at one
index of the sorted per-author list. -/
def setAt (f : Nat → Option Nat) (i : Nat) (v : Option Nat) : Nat → Option Nat :=
  fun j => if j = i then v else f j

/-- The prev and next references of the stories of one author, indexed by
position in that author's chronologically sorted story list.  A value of
none models the Python attribute still holding None. -/
structure AuthorLinks where
  prev : Nat → Option Nat
  next : Nat → Option Nat

/-- One iteration of the linking loop of convert_html_files
(src/convert.py lines 357-359): for k in range(n-2), the story at index
k+1 gets prev = index k and next = index k+2. -/
def linkStep (l : AuthorLinks) (k : Nat) : AuthorLinks :=
  ⟨setAt l.prev (k + 1) (some k), setAt l.next (k + 1) (some (k + 2))⟩

/-- The prev/next assignment of convert_html_files (src/convert.py lines
351-359) for an author with n stories: nothing for fewer than 2 stories;
s[0].next = s[1] and s[-1].prev = s[-2] for 2 or more; and the zip loop
over interior stories when there are more than 2. -/
def assignPrevNext (n : Nat) : AuthorLinks :=
  let l0 : AuthorLinks := ⟨fun _ => none, fun _ => none⟩
  if 2 ≤ n then
    let l1 : AuthorLinks := ⟨l0.prev, setAt l0.next 0 (some 1)⟩
    let l2 : AuthorLinks := ⟨setAt l1.prev (n - 1) (some (n - 2)), l1.next⟩
    if 2 < n then (List.range (n - 2)).foldl linkStep l2 else l2
  else l0

/-- The chronologically sorted story list of one author:
sorted(story_data[author_name].stories, key=attrgetter) with the date
attribute (src/convert.py line 347).  Python sorted is a stable sort by
a total preorder; List.insertionSort with the same comparison computes
the same list. -/
def authorChron (dates : List PyDate) : List PyDate :=
  List.insertionSort dleR dates

/-- The prev/next links produced for one author, over positions of the
sorted list authorChron. -/
def authorLinks (dates : List PyDate) : AuthorLinks :=
  assignPrevNext (authorChron dates).length

/-- ASCII lowercase map, modelling Python str.lower on the characters of
this corpus (Python lowercases per code point; outside A-Z the titles
compared here are unchanged). -/
def asciiLower (c : Char) : Char :=
  if 65 ≤ c.toNat ∧ c.toNat ≤ 90 then Char.ofNat (c.toNat + 32) else c

/-- The whitespace characters recognised by Python str.strip and by the
regex class backslash-s on ASCII text. -/
def isSpAscii (c : Char) : Bool :=
  c == ' ' || c == '\t' || c == '\n' || c == '\x0d' || c == '\x0b' || c == '\x0c'

/-- The ASCII decimal digits, the instantiation of the regex class
backslash-d used on this corpus.  The regex functions below are
parameterized over the digit predicate, since the full Unicode digit
table is environment data. -/
def isDigitAscii (c : Char) : Bool :=
  48 ≤ c.toNat && c.toNat ≤ 57

/-- Python str.strip, parameterized by the whitespace predicate: removes
leading and trailing whitespace. -/
def pyStripG (isSp : Char → Bool) (l : List Char) : List Char :=
  ((l.dropWhile isSp).reverse.dropWhile isSp).reverse

/-- Numeric value of a digit character, as int() computes it on ASCII. -/
def digitVal (c : Char) : Nat := c.toNat - 48

/-- int() applied to a run of digit characters. -/
def digitsToNat (l : List Char) : Nat :=
  l.foldl (fun acc c => 10 * acc + digitVal c) 0

/-- find_integer (src/convert.py lines 26-29): INTEGER_PATTERN.search
finds the first maximal run of digits; the function returns int() of it,
or None (here none) when the string has no digit. -/
def findInteger (isDigitP : Char → Bool) : List Char → Option Nat
  | [] => none
  | c :: rest =>
    if isDigitP c then some (digitsToNat (c :: rest.takeWhile isDigitP))
    else findInteger isDigitP rest

/-- story_title_sort_key (src/convert.py lines 31-47): lowercase and
strip the title, then build the 3-tuple of the leading run of non-digit
characters (LEADING_NON_DIGITS: empty when the title starts with a
digit or is empty), the first embedded integer with 0 for None
(find_integer(title) or 0), and the whole lowercased stripped title. -/
def storyTitleSortKey (isDigitP : Char → Bool) (title : List Char) :
    List Char × Nat × List Char :=
  let t := pyStripG isSpAscii (title.map asciiLower)
  let leadingNonDigits := t.takeWhile fun c => !(isDigitP c)
  let integer := (findInteger isDigitP t).getD 0
  (leadingNonDigits, integer, t)

/-- Strict lexicographic comparison of code-point lists, as Python
compares strings. -/
def charListLt : List Char → List Char → Bool
  | [], [] => false
  | [], _ :: _ => true
  | _ :: _, [] => false
  | a :: as, b :: bs =>
    if a.toNat < b.toNat then true
    else if b.toNat < a.toNat then false
    else charListLt as bs

/-- Python tuple comparison of two title sort keys: strict less-than. -/
def keyLt (k1 k2 : List Char × Nat × List Char) : Bool :=
  charListLt k1.1 k2.1 ||
    (decide (k1.1 = k2.1) && (decide (k1.2.1 < k2.2.1) ||
      (decide (k1.2.1 = k2.2.1) && charListLt k1.2.2 k2.2.2)))

/-- Python tuple comparison of two title sort keys: less-or-equal, the
relation under which sorted() with this key orders stories. -/
def keyLe (k1 k2 : List Char × Nat × List Char) : Bool :=
  !(keyLt k2 k1)

/-- The date part of the AUTHOR_INFO pattern (src/convert.py lines
19-20): a match of the literal text from the space before the vertical
bar through minute, against the beginning of the list; the remaining
text is unconstrained because the regex is not anchored at the end.
Returns (year, month, day, hour, minute) as int() of the groups. -/
def parseDatePart (isDigitP : Char → Bool) :
    List Char → Option (Nat × Nat × Nat × Nat × Nat)
  | ' ' :: '|' :: ' ' :: mo1 :: mo2 :: '/' :: d1 :: d2 :: '/' ::
      y1 :: y2 :: y3 :: y4 :: ' ' :: '-' :: ' ' :: h1 :: h2 :: ':' :: n1 :: n2 :: _ =>
    if isDigitP mo1 && isDigitP mo2 && isDigitP d1 && isDigitP d2 &&
        isDigitP y1 && isDigitP y2 && isDigitP y3 && isDigitP y4 &&
        isDigitP h1 && isDigitP h2 && isDigitP n1 && isDigitP n2 then
      some (digitsToNat [y1, y2, y3, y4], digitsToNat [mo1, mo2],
        digitsToNat [d1, d2], digitsToNat [h1, h2], digitsToNat [n1, n2])
    else none
  | _ => none

/-- A successful AUTHOR_INFO match: the name group and the five integer
date fields. -/
structure AuthorInfoM where
  name : List Char
  year : Nat
  month : Nat
  day : Nat
  hour : Nat
  minute : Nat
deriving DecidableEq, Repr

/-- AUTHOR_INFO matching at one start position: the name group is the
lazy one-or-more run of non-newline characters (the dot of the pattern
does not match a newline), so successive name lengths are tried from the
shortest; acc holds the name characters consumed so far. -/
def authorInfoMatchFrom (isDigitP : Char → Bool) (acc : List Char) :
    List Char → Option AuthorInfoM
  | [] => none
  | c :: rest =>
    if c = '\n' then none
    else
      match parseDatePart isDigitP rest with
      | some (y, mo, d, h, mi) => some ⟨acc ++ [c], y, mo, d, h, mi⟩
      | none => authorInfoMatchFrom isDigitP (acc ++ [c]) rest

/-- AUTHOR_INFO.search: try every start position from the left, as
re.search does. -/
def authorInfoSearch (isDigitP : Char → Bool) : List Char → Option AuthorInfoM
  | [] => none
  | c :: rest =>
    match authorInfoMatchFrom isDigitP [] (c :: rest) with
    | some m => some m
    | none => authorInfoSearch isDigitP rest

/-- Gregorian leap year rule, as datetime uses it. -/
def isLeapYear (y : Nat) : Bool :=
  (y % 4 == 0 && y % 100 != 0) || y % 400 == 0

/-- Days in a month, as datetime validates the day field. -/
def daysInMonth (y m : Nat) : Nat :=
  if m = 2 then (if isLeapYear y then 29 else 28)
  else if m = 4 ∨ m = 6 ∨ m = 9 ∨ m = 11 then 30
  else 31

/-- The argument validation of datetime(year, month, day, hour, minute):
out-of-range fields raise ValueError. -/
def datetimeValid (y mo d h mi : Nat) : Bool :=
  decide (1 ≤ y) && decide (y ≤ 9999) && decide (1 ≤ mo) && decide (mo ≤ 12) &&
    decide (1 ≤ d) && decide (d ≤ daysInMonth y mo) && decide (h ≤ 23) &&
    decide (mi ≤ 59)

/-- The author/date fragment of parse_story_file (src/convert.py lines
272-279), the part of the function that decides whether a classified
story file yields a record: AUTHOR_INFO.match on the stripped credits
text.  No match falls through to the implicit return None, modelled as
Except.ok none (the silent drop); a match builds the datetime, whose
validation failure would raise (Except.error).  The story text, title
and comments are extracted from markup upstream and are orthogonal to
this decision, so the result carries the match data only. -/
def storyFromCredits (isDigitP : Char → Bool) (raw : List Char) :
    Except String (Option AuthorInfoM) :=
  match authorInfoMatchFrom isDigitP [] raw with
  | none => Except.ok none
  | some m =>
    if datetimeValid m.year m.month m.day m.hour m.minute then
      Except.ok (some m)
    else Except.error "ValueError: datetime field out of range"

/-- The author/date fragment of get_comment (src/convert.py lines
192-199): AUTHOR_INFO.search on the stripped text of the author info
node.  No match raises ValueError (the hard failure); a match builds the
datetime. -/
def commentFromAuthorInfo (isDigitP : Char → Bool) (isSp : Char → Bool)
    (s : List Char) : Except String AuthorInfoM :=
  match authorInfoSearch isDigitP (pyStripG isSp s) with
  | none => Except.error "ValueError: could not decode author/date of comment"
  | some m =>
    if datetimeValid m.year m.month m.day m.hour m.minute then
      Except.ok m
    else Except.error "ValueError: datetime field out of range"

/-- The depth computation of get_comment (src/convert.py lines 211-214):
depth starts at 0 and is recomputed only when the parent of the rule
node has a style attribute; then find_integer is applied to the style
text and the result floor-divided by 25.  When find_integer returns
None, the floor division is applied to None and raises TypeError,
modelled as Except.error. -/
def commentDepth (isDigitP : Char → Bool) (style : Option (List Char)) :
    Except String Nat :=
  match style with
  | none => Except.ok 0
  | some s =>
    match findInteger isDigitP s with
    | none => Except.error "TypeError: unsupported operand types for floor division"
    | some marginPx => Except.ok (marginPx / 25)

/-- Major Unicode general category classes distinguished by
is_valid_filesystem_char: Letter, Number, Separator, and everything
else. -/
inductive UCat where
  | L
  | N
  | Z
  | other
deriving DecidableEq, Repr

/-- is_valid_filesystem_char (src/convert.py lines 49-55): keep a
character when the first letter of its Unicode general category is L, N
or Z.  The category function is a parameter: the full Unicode table is
environment data, and the properties proved below hold for every
category assignment satisfying the stated facts about it. -/
def isValidFilesystemChar (ucat : Char → UCat) (c : Char) : Bool :=
  decide (ucat c = UCat.L) || decide (ucat c = UCat.N) || decide (ucat c = UCat.Z)

/-- The WHITESPACE.sub substitution of sanitize_for_filesystem: every
maximal run of whitespace becomes a single underscore.  The flag records
whether the scan is inside a run whose underscore has already been
emitted. -/
def wsSubAux (isSp : Char → Bool) : Bool → List Char → List Char
  | _, [] => []
  | inRun, c :: rest =>
    if isSp c then
      (if inRun then [] else ['_']) ++ wsSubAux isSp true rest
    else c :: wsSubAux isSp false rest

/-- WHITESPACE.sub with the underscore replacement, applied from outside
a run. -/
def wsToUnderscore (isSp : Char → Bool) (l : List Char) : List Char :=
  wsSubAux isSp false l

/-- No two adjacent underscores occur in the list. -/
def noDoubleUnderscore : List Char → Bool
  | c1 :: c2 :: rest => !(c1 == '_' && c2 == '_') && noDoubleUnderscore (c2 :: rest)
  | _ => true

/-- sanitize_for_filesystem (src/convert.py lines 57-61): replace literal
underscores by spaces, normalize (NFKC), keep only Letter, Number and
Separator characters, strip, and collapse whitespace runs to single
underscores.  The NFKC normalization, the category table and the
whitespace predicate are parameters standing for the unicodedata and
regex tables the source consults. -/
def sanitizeForFilesystem (nfkc : List Char → List Char) (ucat : Char → UCat)
    (isSp : Char → Bool) (text : List Char) : List Char :=
  let underscoresRemoved := text.map fun c => if c = '_' then ' ' else c
  let normalized := nfkc underscoresRemoved
  let filtered := pyStripG isSp (normalized.filter (isValidFilesystemChar ucat))
  wsToUnderscore isSp filtered

/-- A concrete category assignment, correct on ASCII: used to evaluate
the sanitizer on the concrete title of the spec. -/
def catAscii (c : Char) : UCat :=
  if (65 ≤ c.toNat ∧ c.toNat ≤ 90) ∨ (97 ≤ c.toNat ∧ c.toNat ≤ 122) then UCat.L
  else if 48 ≤ c.toNat ∧ c.toNat ≤ 57 then UCat.N
  else if c = ' ' then UCat.Z
  else UCat.other

instance : IsTotal PyDate dleR :=
  ⟨by
    intro a b
    simp only [dleR, dateLe, Bool.or_eq_true, Bool.and_eq_true, decide_eq_true_eq]
    omega⟩

instance : IsTrans PyDate dleR :=
  ⟨by
    intro a b c hab hbc
    simp only [dleR, dateLe, Bool.or_eq_true, Bool.and_eq_true, decide_eq_true_eq] at *
    omega⟩

set_option maxRecDepth 4000 in
theorem cp1252_bound : ∀ b, b < 256 → (cp1252 b).getD 0 < 0xDC80 := by decide

theorem cp1252_lt_surrogate {b r : Nat} (hb : b < 256) (h : cp1252 b = some r) :
    r < 0xDC80 := by
  have hg := cp1252_bound b hb
  rw [h] at hg
  simpa using hg

theorem subSurrogates_ok_no_escape :
    ∀ (l out : List Nat), subSurrogates l = Except.ok out →
      ∀ c ∈ out, c < 0xDC80 ∨ 0xDCFF < c := by
  intro l
  induction l with
  | nil =>
    intro out h c hc
    injection h with h
    subst h
    simp at hc
  | cons c0 rest ih =>
    intro out h c hc
    simp only [subSurrogates] at h
    by_cases hr : 0xDC80 ≤ c0 ∧ c0 ≤ 0xDCFF
    · rw [if_pos hr] at h
      cases hcp : cp1252 (c0 - 0xDC00) with
      | none => rw [hcp] at h; exact Except.noConfusion h
      | some r =>
        rw [hcp] at h
        cases hrec : subSurrogates rest with
        | error e => rw [hrec] at h; exact Except.noConfusion h
        | ok tail =>
          rw [hrec] at h
          simp only [subsOne, Except.map] at h
          injection h with h
          subst h
          rcases List.mem_cons.mp hc with hc1 | hc2
          · subst hc1
            exact Or.inl (cp1252_lt_surrogate (by omega) hcp)
          · exact ih tail hrec c hc2
    · rw [if_neg hr] at h
      cases hrec : subSurrogates rest with
      | error e => rw [hrec] at h; exact Except.noConfusion h
      | ok tail =>
        rw [hrec] at h
        simp only [Except.map] at h
        injection h with h
        subst h
        rcases List.mem_cons.mp hc with hc1 | hc2
        · subst hc1; omega
        · exact ih tail hrec c hc2

theorem replace1_eq_of_not_mem {p1 : Nat} {rep : List Nat} :
    ∀ {l : List Nat}, p1 ∉ l → replace1 p1 rep l = l := by
  intro l
  induction l with
  | nil => intro _; rfl
  | cons c rest ih =>
    intro h
    have hc : ¬(c = p1) := fun e => h (e ▸ List.mem_cons_self c rest)
    simp only [replace1, if_neg hc]
    rw [ih fun hm => h (List.mem_cons_of_mem c hm)]

theorem replace2_eq_of_not_mem {p1 p2 : Nat} {rep : List Nat} :
    ∀ {l : List Nat}, p1 ∉ l → replace2 p1 p2 rep l = l := by
  intro l
  induction l with
  | nil => intro _; rfl
  | cons c rest ih =>
    intro h
    have hc : ¬(c = p1) := fun e => h (e ▸ List.mem_cons_self c rest)
    cases rest with
    | nil => rfl
    | cons c2 rest2 =>
      simp only [replace2, if_neg (fun hand => hc (And.left hand))]
      rw [ih fun hm => h (List.mem_cons_of_mem c hm)]

theorem replace3_eq_of_not_mem {p1 p2 p3 : Nat} {rep : List Nat} :
    ∀ {l : List Nat}, p1 ∉ l → replace3 p1 p2 p3 rep l = l := by
  intro l
  induction l with
  | nil => intro _; rfl
  | cons c rest ih =>
    intro h
    have hc : ¬(c = p1) := fun e => h (e ▸ List.mem_cons_self c rest)
    cases rest with
    | nil => rfl
    | cons c2 rest2 =>
      cases rest2 with
      | nil => rfl
      | cons c3 rest3 =>
        simp only [replace3, if_neg (fun hand => hc (And.left hand))]
        rw [ih fun hm => h (List.mem_cons_of_mem c hm)]

/-- C1: the claim states that decoding is total, every byte sequence
producing a string with every remaining unmapped byte resolved through
the cp1252 single-byte fallback, never aborting.  The code contradicts
this on the five bytes undefined in cp1252: the surrogate escape of
each reaches surrogate_cp1252_replace, whose strict byte.decode raises
UnicodeDecodeError.  This theorem evaluates tolerant_decode at the five
failing one-byte inputs. -/
theorem c1_decode_not_total :
    tolerantDecode [0x81] =
        Except.error "UnicodeDecodeError: character maps to undefined" ∧
    tolerantDecode [0x8D] =
        Except.error "UnicodeDecodeError: character maps to undefined" ∧
    tolerantDecode [0x8F] =
        Except.error "UnicodeDecodeError: character maps to undefined" ∧
    tolerantDecode [0x90] =
        Except.error "UnicodeDecodeError: character maps to undefined" ∧
    tolerantDecode [0x9D] =
        Except.error "UnicodeDecodeError: character maps to undefined" :=
  ⟨rfl, rfl, rfl, rfl, rfl⟩

/-- C10: whenever tolerant_decode returns a string, that string contains
no surrogate-escape code point in the range U+DC80 through U+DCFF: the
final substitution pass replaces every such code point with its cp1252
interpretation (or fails), and the fixed substitutions and cp1252
values introduce none. -/
theorem c10_no_surrogate_escapes (bs s : List Nat)
    (h : tolerantDecode bs = Except.ok s) :
    ∀ c ∈ s, ¬(0xDC80 ≤ c ∧ c ≤ 0xDCFF) := by
  intro c hc
  have := subSurrogates_ok_no_escape (applyFixes (decodeSE bs)) s h c hc
  omega

theorem c10_no_surrogate_escapes_witness :
    tolerantDecode [0x61] = Except.ok [0x61] ∧
    ∀ c ∈ [0x61], ¬(0xDC80 ≤ c ∧ c ≤ 0xDCFF) :=
  ⟨rfl, c10_no_surrogate_escapes [0x61] [0x61] rfl⟩

/-- C6: the ordered fixed substitution list is idempotent on decoder
output: every string returned by tolerant_decode is left unchanged by a
second application of the find/replace corrections, because each
corruption pattern begins with a surrogate-escape code point and the
returned string contains none. -/
theorem c6_fixes_idempotent (bs s : List Nat)
    (h : tolerantDecode bs = Except.ok s) :
    applyFixes s = s := by
  have hall := subSurrogates_ok_no_escape (applyFixes (decodeSE bs)) s h
  have h1 : (0xDCE2 : Nat) ∉ s := fun hm => by have := hall _ hm; omega
  have h2 : (0xDCC3 : Nat) ∉ s := fun hm => by have := hall _ hm; omega
  have h3 : (0xDCEF : Nat) ∉ s := fun hm => by have := hall _ hm; omega
  simp only [applyFixes]
  rw [replace3_eq_of_not_mem h1, replace2_eq_of_not_mem h1,
    replace1_eq_of_not_mem h2, replace2_eq_of_not_mem h3]

theorem c6_fixes_idempotent_witness :
    tolerantDecode [0x61, 0xE2, 0x80] = Except.ok [0x61, 0x201D] ∧
    applyFixes [0x61, 0x201D] = [0x61, 0x201D] :=
  ⟨rfl, c6_fixes_idempotent [0x61, 0xE2, 0x80] [0x61, 0x201D] rfl⟩

/-- C2: a comment with positive depth whose truncated ancestor stack is
empty makes parse_comments fail (the assert raises) rather than treating
the comment as top-level; in particular any flat sequence whose first
comment has positive depth fails. -/
theorem c2_depth_stack_underflow :
    (∀ (stack : List Nat) (idx d : Nat) (rest : List Nat),
      0 < d → stack.take d = [] →
      assignParentsAux stack idx (d :: rest) = none) ∧
    (∀ (d : Nat) (rest : List Nat), 0 < d → parseComments (d :: rest) = none) := by
  have main : ∀ (stack : List Nat) (idx d : Nat) (rest : List Nat),
      0 < d → stack.take d = [] →
      assignParentsAux stack idx (d :: rest) = none := by
    intro stack idx d rest hd hs
    have hd0 : ¬(d = 0) := by omega
    simp only [assignParentsAux, hs, if_neg hd0, List.getLast?_nil]
  refine ⟨main, ?_⟩
  intro d rest hd
  exact main [] 0 d rest hd (by simp)

theorem c2_depth_stack_underflow_witness :
    assignParentsAux [] 7 [2, 0] = none ∧ parseComments [1] = none :=
  ⟨c2_depth_stack_underflow.1 [] 7 2 [0] (by decide) (by decide),
   c2_depth_stack_underflow.2 1 [] (by decide)⟩

/-- C4: for the flat depth sequence [0, 1, 1, 2, 0], parse_comments
yields two top-level comments (indices 0 and 4 in flat order); the first
has exactly the children 1 and 2 (in flat order), comment 2 has exactly
the child 3, and the second top-level comment has no children. -/
theorem c4_comment_forest :
    parseComments [0, 1, 1, 2, 0] = some [none, some 0, some 0, some 2, none] ∧
    topLevelOf [none, some 0, some 0, some 2, none] = [0, 4] ∧
    childrenOf [none, some 0, some 0, some 2, none] 0 = [1, 2] ∧
    childrenOf [none, some 0, some 0, some 2, none] 2 = [3] ∧
    childrenOf [none, some 0, some 0, some 2, none] 4 = [] := by
  refine ⟨by decide, by decide, by decide, by decide, by decide⟩

theorem foldl_linkStep_prev (m : Nat) (l : AuthorLinks) (i : Nat) :
    ((List.range m).foldl linkStep l).prev i =
      if 1 ≤ i ∧ i ≤ m then some (i - 1) else l.prev i := by
  induction m with
  | zero =>
    rw [if_neg (by omega)]
    simp
  | succ m ih =>
    rw [List.range_succ, List.foldl_append, List.foldl_cons, List.foldl_nil]
    show setAt ((List.range m).foldl linkStep l).prev (m + 1) (some m) i = _
    unfold setAt
    by_cases hi : i = m + 1
    · subst hi
      rw [if_pos rfl, if_pos (by omega)]
      simp
    · rw [if_neg hi, ih]
      by_cases h2 : 1 ≤ i ∧ i ≤ m
      · rw [if_pos h2, if_pos (by omega)]
      · rw [if_neg h2, if_neg (by omega)]

theorem foldl_linkStep_next (m : Nat) (l : AuthorLinks) (i : Nat) :
    ((List.range m).foldl linkStep l).next i =
      if 1 ≤ i ∧ i ≤ m then some (i + 1) else l.next i := by
  induction m with
  | zero =>
    rw [if_neg (by omega)]
    simp
  | succ m ih =>
    rw [List.range_succ, List.foldl_append, List.foldl_cons, List.foldl_nil]
    show setAt ((List.range m).foldl linkStep l).next (m + 1) (some (m + 2)) i = _
    unfold setAt
    by_cases hi : i = m + 1
    · subst hi
      rw [if_pos rfl, if_pos (by omega)]
    · rw [if_neg hi, ih]
      by_cases h2 : 1 ≤ i ∧ i ≤ m
      · rw [if_pos h2, if_pos (by omega)]
      · rw [if_neg h2, if_neg (by omega)]

theorem assignPrevNext_next (n i : Nat) (h : i < n) :
    (assignPrevNext n).next i = if i + 1 < n then some (i + 1) else none := by
  simp only [assignPrevNext]
  by_cases h2 : 2 ≤ n
  · rw [if_pos h2]
    by_cases h3 : 2 < n
    · rw [if_pos h3, foldl_linkStep_next]
      by_cases hc : 1 ≤ i ∧ i ≤ n - 2
      · rw [if_pos hc, if_pos (by omega)]
      · rw [if_neg hc]
        simp only [setAt]
        by_cases hi0 : i = 0
        · subst hi0
          rw [if_pos rfl, if_pos (by omega)]
        · rw [if_neg hi0, if_neg (by omega)]
    · rw [if_neg h3]
      simp only [setAt]
      by_cases hi0 : i = 0
      · subst hi0
        rw [if_pos rfl, if_pos (by omega)]
      · rw [if_neg hi0, if_neg (by omega)]
  · rw [if_neg h2, if_neg (by omega)]

theorem assignPrevNext_prev (n i : Nat) (h : i < n) :
    (assignPrevNext n).prev i = if 1 ≤ i then some (i - 1) else none := by
  simp only [assignPrevNext]
  by_cases h2 : 2 ≤ n
  · rw [if_pos h2]
    by_cases h3 : 2 < n
    · rw [if_pos h3, foldl_linkStep_prev]
      by_cases hc : 1 ≤ i ∧ i ≤ n - 2
      · rw [if_pos hc, if_pos (by omega)]
      · rw [if_neg hc]
        simp only [setAt]
        by_cases hin : i = n - 1
        · subst hin
          rw [if_pos rfl, if_pos (by omega)]
          congr 1
        · rw [if_neg hin, if_neg (by omega)]
    · rw [if_neg h3]
      simp only [setAt]
      by_cases hin : i = n - 1
      · subst hin
        rw [if_pos rfl, if_pos (by omega)]
        congr 1
      · rw [if_neg hin, if_neg (by omega)]
  · rw [if_neg h2, if_neg (by omega)]

/-- C3: for every author, the chronologically sorted story list is
linked so that the story at position i has next pointing to position
i+1 (absent at the last position) and prev pointing to position i-1
(absent at the first position), and next/prev are mutually consistent:
next i = j implies prev j = i with j a position of the same author's
list.  All links live inside one author's sorted list, so linked
stories belong to the same author by construction. -/
theorem c3_prev_next_linkage (dates : List PyDate) :
    List.Sorted dleR (authorChron dates) ∧
    ∀ i, i < (authorChron dates).length →
      ((authorLinks dates).next i =
        if i + 1 < (authorChron dates).length then some (i + 1) else none) ∧
      ((authorLinks dates).prev i = if 1 ≤ i then some (i - 1) else none) ∧
      ∀ j, (authorLinks dates).next i = some j →
        j < (authorChron dates).length ∧ (authorLinks dates).prev j = some i := by
  refine ⟨List.sorted_insertionSort dleR dates, ?_⟩
  intro i hi
  refine ⟨assignPrevNext_next _ _ hi, assignPrevNext_prev _ _ hi, ?_⟩
  intro j hj
  rw [show (authorLinks dates).next i = (assignPrevNext (authorChron dates).length).next i from rfl,
    assignPrevNext_next _ _ hi] at hj
  by_cases hlt : i + 1 < (authorChron dates).length
  · rw [if_pos hlt] at hj
    injection hj with hj
    subst hj
    refine ⟨hlt, ?_⟩
    rw [show (authorLinks dates).prev (i + 1) = (assignPrevNext (authorChron dates).length).prev (i + 1) from rfl,
      assignPrevNext_prev _ _ hlt, if_pos (by omega)]
    simp
  · rw [if_neg hlt] at hj
    exact Option.noConfusion hj

theorem c3_prev_next_linkage_witness :
    (authorLinks [⟨2007, 5, 6, 7, 8⟩, ⟨2008, 1, 1, 0, 0⟩, ⟨2007, 1, 2, 3, 4⟩]).next 1 = some 2 ∧
    (authorLinks [⟨2007, 5, 6, 7, 8⟩, ⟨2008, 1, 1, 0, 0⟩, ⟨2007, 1, 2, 3, 4⟩]).prev 2 = some 1 ∧
    (authorLinks [⟨2007, 5, 6, 7, 8⟩, ⟨2008, 1, 1, 0, 0⟩, ⟨2007, 1, 2, 3, 4⟩]).prev 0 = none := by
  have h1 := (c3_prev_next_linkage [⟨2007, 5, 6, 7, 8⟩, ⟨2008, 1, 1, 0, 0⟩, ⟨2007, 1, 2, 3, 4⟩]).2 1 (by decide)
  have h0 := (c3_prev_next_linkage [⟨2007, 5, 6, 7, 8⟩, ⟨2008, 1, 1, 0, 0⟩, ⟨2007, 1, 2, 3, 4⟩]).2 0 (by decide)
  have h2 := h1.2.2 2 (by rw [h1.1]; decide)
  refine ⟨?_, h2.2, ?_⟩
  · rw [h1.1]; decide
  · rw [h0.2.1]; decide

/-- C5: sorting the titles by the story title sort key orders
Story 2 before Story 9 before Story 80; the key of Story 9 is the
3-tuple of the leading non-digit run of the lowercased trimmed title,
the first embedded integer, and the full lowercased trimmed title; and
in general, when the leading non-digit runs of two keys are equal, a
smaller first embedded integer makes the key strictly smaller, so the
embedded integer is compared numerically when the leading text ties. -/
theorem c5_title_sort_key :
    List.insertionSort
        (fun t1 t2 => keyLe (storyTitleSortKey isDigitAscii t1)
          (storyTitleSortKey isDigitAscii t2) = true)
        [("Story 9").data, ("Story 80").data, ("Story 2").data] =
      [("Story 2").data, ("Story 9").data, ("Story 80").data] ∧
    storyTitleSortKey isDigitAscii ("Story 9").data =
      (("story ").data, 9, ("story 9").data) ∧
    ∀ (isDigitP : Char → Bool) (u v : List Char),
      (storyTitleSortKey isDigitP u).1 = (storyTitleSortKey isDigitP v).1 →
      (storyTitleSortKey isDigitP u).2.1 < (storyTitleSortKey isDigitP v).2.1 →
      keyLt (storyTitleSortKey isDigitP u) (storyTitleSortKey isDigitP v) = true := by
  refine ⟨by decide, by decide, ?_⟩
  intro isDigitP u v h1 h2
  simp only [keyLt, Bool.or_eq_true, Bool.and_eq_true, decide_eq_true_eq]
  right
  exact ⟨h1, Or.inl h2⟩

theorem c5_title_sort_key_witness :
    keyLt (storyTitleSortKey isDigitAscii ("Story 9").data)
      (storyTitleSortKey isDigitAscii ("Story 80").data) = true :=
  c5_title_sort_key.2.2 isDigitAscii ("Story 9").data ("Story 80").data
    (by decide) (by decide)

/-- C7: when the credits text of a classified story file does not match
the AUTHOR_INFO pattern, parse_story_file returns nothing (the silent
drop, Except.ok none, not an error); when the author/date text of a
comment does not match the same pattern, get_comment raises ValueError
(a hard error, Except.error, not a silent drop). -/
theorem c7_credits_failure_policy (isDigitP isSp : Char → Bool)
    (raw s : List Char) :
    (authorInfoMatchFrom isDigitP [] raw = none →
      storyFromCredits isDigitP raw = Except.ok none) ∧
    (authorInfoSearch isDigitP (pyStripG isSp s) = none →
      commentFromAuthorInfo isDigitP isSp s =
        Except.error "ValueError: could not decode author/date of comment") := by
  constructor
  · intro h
    rw [storyFromCredits.eq_def, h]
  · intro h
    rw [commentFromAuthorInfo.eq_def, h]

theorem c7_credits_failure_policy_witness :
    storyFromCredits isDigitAscii ("garbage").data = Except.ok none ∧
    commentFromAuthorInfo isDigitAscii isSpAscii ("no match here").data =
      Except.error "ValueError: could not decode author/date of comment" :=
  ⟨(c7_credits_failure_policy isDigitAscii isSpAscii ("garbage").data
      ("no match here").data).1 (by decide),
   (c7_credits_failure_policy isDigitAscii isSpAscii ("garbage").data
      ("no match here").data).2 (by decide)⟩

/-- C9 counterexample: the claim asserts that depth 0 is used only when
the style attribute is entirely absent, but a present style attribute
whose first embedded integer is below 25 also yields depth 0: the style
text consisting of the single digit 0 is present and produces depth 0. -/
theorem c9_style_depth_counterexample :
    commentDepth isDigitAscii (some [Char.ofNat 48]) = Except.ok 0 ∧
    (some [Char.ofNat 48] : Option (List Char)) ≠ none :=
  ⟨rfl, by simp⟩

/-- C9 (amended): the default depth 0 survives only when the style
attribute is absent; when a style attribute is present and contains no
digit run, the depth computation applies floor division to a missing
integer and comment extraction fails for that record (no silent default
to 0); when a style is present with first integer n, the depth is
n / 25, which is 0 exactly when n is below 25. -/
theorem c9_style_depth (isDigitP : Char → Bool) (s : List Char) :
    commentDepth isDigitP none = Except.ok 0 ∧
    (findInteger isDigitP s = none →
      commentDepth isDigitP (some s) =
        Except.error "TypeError: unsupported operand types for floor division") ∧
    (∀ n, findInteger isDigitP s = some n →
      commentDepth isDigitP (some s) = Except.ok (n / 25)) := by
  refine ⟨rfl, ?_, ?_⟩
  · intro h
    show (match findInteger isDigitP s with
      | none => Except.error "TypeError: unsupported operand types for floor division"
      | some marginPx => Except.ok (marginPx / 25)) =
      Except.error "TypeError: unsupported operand types for floor division"
    rw [h]
  · intro n h
    show (match findInteger isDigitP s with
      | none => Except.error "TypeError: unsupported operand types for floor division"
      | some marginPx => Except.ok (marginPx / 25)) = Except.ok (n / 25)
    rw [h]

theorem c9_style_depth_witness :
    commentDepth isDigitAscii none = Except.ok 0 ∧
    commentDepth isDigitAscii (some ("abc").data) =
      Except.error "TypeError: unsupported operand types for floor division" ∧
    commentDepth isDigitAscii (some ("margin-left: 50px").data) = Except.ok (50 / 25) :=
  ⟨(c9_style_depth isDigitAscii ("abc").data).1,
   (c9_style_depth isDigitAscii ("abc").data).2.1 (by decide),
   (c9_style_depth isDigitAscii ("margin-left: 50px").data).2.2 50 (by decide)⟩

theorem wsSubAux_mem {isSp : Char → Bool} :
    ∀ (b : Bool) (l : List Char) (c : Char), c ∈ wsSubAux isSp b l →
      c = '_' ∨ (c ∈ l ∧ isSp c = false) := by
  intro b l
  induction l generalizing b with
  | nil => intro c hc; simp [wsSubAux] at hc
  | cons c0 rest ih =>
    intro c hc
    simp only [wsSubAux] at hc
    by_cases hs : isSp c0
    · rw [if_pos hs] at hc
      rcases List.mem_append.mp hc with h1 | h2
      · left
        cases b with
        | true => simp at h1
        | false => simpa using h1
      · rcases ih true c h2 with h | ⟨hm, hsp⟩
        · left; exact h
        · right; exact ⟨List.mem_cons_of_mem _ hm, hsp⟩
    · rw [if_neg hs] at hc
      rcases List.mem_cons.mp hc with h | h
      · subst h
        right
        exact ⟨List.mem_cons_self _ _, by simpa using hs⟩
      · rcases ih false c h with h | ⟨hm, hsp⟩
        · left; exact h
        · right; exact ⟨List.mem_cons_of_mem _ hm, hsp⟩

theorem noDoubleUnderscore_cons (c : Char) (X : List Char)
    (hX : noDoubleUnderscore X = true)
    (hh : c = '_' → X.head? ≠ some '_') :
    noDoubleUnderscore (c :: X) = true := by
  cases X with
  | nil => rfl
  | cons x xs =>
    simp only [noDoubleUnderscore, Bool.and_eq_true]
    refine ⟨?_, hX⟩
    by_cases hc : c = '_'
    · have hx : ¬(x = '_') := fun e => hh hc (by simp [e])
      simp [hc, hx]
    · simp [hc]

theorem wsSubAux_noDouble {isSp : Char → Bool} :
    ∀ l : List Char, ('_' ∉ l) →
      noDoubleUnderscore (wsSubAux isSp true l) = true ∧
      noDoubleUnderscore (wsSubAux isSp false l) = true ∧
      (wsSubAux isSp true l).head? ≠ some '_' := by
  intro l
  induction l with
  | nil =>
    intro _
    refine ⟨rfl, rfl, by simp [wsSubAux]⟩
  | cons c0 rest ih =>
    intro h
    have h0 : ¬(c0 = '_') := fun e => h (e ▸ List.mem_cons_self _ _)
    have hrest : '_' ∉ rest := fun hm => h (List.mem_cons_of_mem _ hm)
    obtain ⟨A, B, H⟩ := ih hrest
    by_cases hs : isSp c0
    · refine ⟨?_, ?_, ?_⟩
      · simp only [wsSubAux, if_pos hs]
        simpa using A
      · simp only [wsSubAux, if_pos hs]
        simp only [if_neg Bool.false_ne_true, List.singleton_append]
        exact noDoubleUnderscore_cons _ _ A fun _ => H
      · simp only [wsSubAux, if_pos hs]
        simpa using H
    · refine ⟨?_, ?_, ?_⟩
      · simp only [wsSubAux, if_neg hs]
        exact noDoubleUnderscore_cons _ _ B fun e => absurd e h0
      · simp only [wsSubAux, if_neg hs]
        exact noDoubleUnderscore_cons _ _ B fun e => absurd e h0
      · simp only [wsSubAux, if_neg hs, List.head?_cons]
        simp [h0]

theorem mem_of_mem_dropWhileC {p : Char → Bool} :
    ∀ {l : List Char} {c : Char}, c ∈ List.dropWhile p l → c ∈ l := by
  intro l
  induction l with
  | nil => intro c hc; simp at hc
  | cons x xs ih =>
    intro c hc
    rw [List.dropWhile_cons] at hc
    by_cases hx : p x
    · rw [if_pos hx] at hc
      exact List.mem_cons_of_mem _ (ih hc)
    · rw [if_neg hx] at hc
      exact hc

theorem mem_of_mem_pyStripG {isSp : Char → Bool} {l : List Char} {c : Char}
    (h : c ∈ pyStripG isSp l) : c ∈ l := by
  unfold pyStripG at h
  rw [List.mem_reverse] at h
  have h1 := mem_of_mem_dropWhileC h
  rw [List.mem_reverse] at h1
  exact mem_of_mem_dropWhileC h1

/-- C8: for every input title, and for every normalization map, category
table and whitespace predicate such that Separator characters are
whitespace and the underscore is not kept by the filter (facts of the
real Unicode tables), the sanitized string contains only characters of
category Letter or Number plus underscores standing in for whitespace
runs, and no two adjacent underscores occur: the literal underscores of
the input were turned into spaces before normalization, so no doubled
underscore is introduced. -/
theorem c8_sanitize_letters_numbers_underscores
    (nfkc : List Char → List Char) (ucat : Char → UCat) (isSp : Char → Bool)
    (hZ : ∀ c, ucat c = UCat.Z → isSp c = true)
    (hU : isValidFilesystemChar ucat '_' = false)
    (text : List Char) :
    (∀ c ∈ sanitizeForFilesystem nfkc ucat isSp text,
      c = '_' ∨ ucat c = UCat.L ∨ ucat c = UCat.N) ∧
    noDoubleUnderscore (sanitizeForFilesystem nfkc ucat isSp text) = true := by
  simp only [sanitizeForFilesystem, wsToUnderscore]
  have hnou : '_' ∉ pyStripG isSp
      ((nfkc (text.map fun c => if c = '_' then ' ' else c)).filter
        (isValidFilesystemChar ucat)) := by
    intro hm
    have h1 := (List.mem_filter.mp (mem_of_mem_pyStripG hm)).2
    rw [hU] at h1
    exact Bool.noConfusion h1
  constructor
  · intro c hc
    rcases wsSubAux_mem false _ c hc with h | ⟨hm, hsp⟩
    · left; exact h
    · right
      have hval := (List.mem_filter.mp (mem_of_mem_pyStripG hm)).2
      simp only [isValidFilesystemChar, Bool.or_eq_true, decide_eq_true_eq] at hval
      cases hval with
      | inl hLN =>
        cases hLN with
        | inl h => left; exact h
        | inr h => right; exact h
      | inr h =>
        exfalso
        rw [hZ c h] at hsp
        exact Bool.noConfusion hsp
  · exact (wsSubAux_noDouble _ hnou).2.1

theorem c8_sanitize_witness :
    (∀ c ∈ sanitizeForFilesystem id catAscii isSpAscii
        (("Don").data ++ [Char.ofNat 39] ++ ("t_Stop (Ever!!)").data),
      c = '_' ∨ catAscii c = UCat.L ∨ catAscii c = UCat.N) ∧
    noDoubleUnderscore (sanitizeForFilesystem id catAscii isSpAscii
      (("Don").data ++ [Char.ofNat 39] ++ ("t_Stop (Ever!!)").data)) = true :=
  c8_sanitize_letters_numbers_underscores id catAscii isSpAscii
    (fun c h => by
      unfold catAscii at h
      split_ifs at h with h1 h2 h3 <;> simp_all [isSpAscii])
    (by decide)
    (("Don").data ++ [Char.ofNat 39] ++ ("t_Stop (Ever!!)").data)
